import Mathlib

/-!
Shallow embedding of the findmyflight-backend core pipeline
(src/ranking/ranking.engine.ts and src/aggregator/flight-aggregator.service.ts)
and proofs about its specified behaviour.

Modelling conventions:
  The JavaScript number type is modelled by the rationals (exact arithmetic).
  ISO timestamp strings are modelled by their parsed instant, in minutes since
  the epoch, so that the getHours call of the dedup signature becomes
  division and remainder arithmetic.  Date parsing inside validateSearchParams
  is abstracted into a parameter dateVal together with the current instant now;
  an unparseable date (NaN) is the value none, and every comparison against
  none is false, as NaN comparisons are in JavaScript.  Promises are settled
  values; the provider registry map is its association list with distinct keys;
  the cache is represented by the value stored under the derived key of the
  incoming request (input) and the value written back with its TTL (output).
  Truthiness tests of the source are translated explicitly (a number is falsy
  iff it is 0, a string is falsy iff it is empty, an absent optional is falsy).
-/

/-- Models Math.round: JavaScript rounds half toward positive infinity, that
is, to the floor of q + 1/2. -/
def jsRound (q : ℚ) : ℤ := Rat.floor (q + 1/2)

/-- Models Math.round(x * 100) / 100, the 2-decimal rounding used throughout. -/
def round2 (q : ℚ) : ℚ := ((jsRound (q * 100) : ℤ) : ℚ) / 100

/-- Models Math.min(...values) for a nonempty spread; the empty case is never
reached on the paths modelled here. -/
def jsMin : List ℚ → ℚ
  | [] => 0
  | x :: xs => xs.foldl min x

/-- Models Math.max(...values) for a nonempty spread. -/
def jsMax : List ℚ → ℚ
  | [] => 0
  | x :: xs => xs.foldl max x

/-- Fuel-based decimal digit accumulator, mirroring the structure of the core
Nat.toDigitsCore renderer at base 10; structural recursion keeps it kernel
reducible. -/
def toDecimalCore (fuel n : ℕ) (ds : List Char) : List Char :=
  match fuel with
  | 0 => ds
  | fuel + 1 =>
    if n / 10 = 0 then Nat.digitChar (n % 10) :: ds
    else toDecimalCore fuel (n / 10) (Nat.digitChar (n % 10) :: ds)

/-- Decimal rendering of a natural number, as template-literal interpolation
renders it. -/
def natStr (n : ℕ) : String := String.mk (toDecimalCore (n + 1) n [])

/-- Decimal rendering of an integer, as template-literal interpolation renders
it. -/
def intStr : ℤ → String
  | Int.ofNat n => natStr n
  | Int.negSucc n => "-" ++ natStr (n + 1)

/-- Recursive specification of the decimal digits of a natural number, used
only in proofs about natStr. -/
def digitsSpec (n : ℕ) : List Char :=
  if n < 10 then [Nat.digitChar n]
  else digitsSpec (n / 10) ++ [Nat.digitChar (n % 10)]
  termination_by n
  decreasing_by exact Nat.div_lt_self (by omega) (by omega)

/-- Trip type enumeration of the common types module. -/
inductive TripType
  | oneWay
  | roundTrip
  | multiCity
deriving DecidableEq

/-- ScoreBreakdown record of src/common/types.ts. -/
structure ScoreBreakdown where
  priceScore : ℚ
  durationScore : ℚ
  stopsScore : ℚ
  totalScore : ℚ
deriving DecidableEq

/-- NormalizedFlight record of src/common/types.ts.  Departure and arrival
instants are minutes since the epoch (see the module comment); duration is in
minutes. -/
structure NormalizedFlight where
  id : String
  provider : String
  airline : String
  airlineCode : String
  departureTime : ℕ
  arrivalTime : ℕ
  duration : ℚ
  stops : ℕ
  price : ℚ
  currency : String
  bookingUrl : String
  tripType : TripType
  departureAirport : String
  arrivalAirport : String
  departureDate : String
  returnDate : Option String
  rankingScore : Option ℚ
  scoreBreakdown : Option ScoreBreakdown
deriving DecidableEq

/-- Price weight of the ranking engine (0.6). -/
def priceWeight : ℚ := 0.6

/-- Duration weight of the ranking engine (0.25). -/
def durationWeight : ℚ := 0.25

/-- Stops weight of the ranking engine (0.15). -/
def stopsWeight : ℚ := 0.15

/-- scorePriceComponent of RankingEngine: inverted min-max normalization of
price over the population, 100 when all prices agree. -/
def scorePriceComponent (flight : NormalizedFlight)
    (allFlights : List NormalizedFlight) : ℚ :=
  let prices := allFlights.map (fun f => f.price)
  let minPrice := jsMin prices
  let maxPrice := jsMax prices
  if minPrice = maxPrice then 100
  else 100 * (1 - (flight.price - minPrice) / (maxPrice - minPrice))

/-- scoreDurationComponent of RankingEngine: inverted min-max normalization of
duration over the population, 100 when all durations agree. -/
def scoreDurationComponent (flight : NormalizedFlight)
    (allFlights : List NormalizedFlight) : ℚ :=
  let durations := allFlights.map (fun f => f.duration)
  let minDuration := jsMin durations
  let maxDuration := jsMax durations
  if minDuration = maxDuration then 100
  else 100 * (1 - (flight.duration - minDuration) / (maxDuration - minDuration))

/-- scoreStopsComponent of RankingEngine: 100 when the maximum stop count of
the population is 0, otherwise 100 * (1 - stops / maxStops).  Note that this
is a max-based normalization, not a min-max normalization. -/
def scoreStopsComponent (flight : NormalizedFlight)
    (allFlights : List NormalizedFlight) : ℚ :=
  let stopCounts := allFlights.map (fun f => (f.stops : ℚ))
  let maxStops := jsMax stopCounts
  if maxStops = 0 then 100
  else 100 * (1 - (flight.stops : ℚ) / maxStops)

/-- calculateScore of RankingEngine: weighted sum of the three components,
rounded to 2 decimals. -/
def calculateScore (flight : NormalizedFlight)
    (allFlights : List NormalizedFlight) : ℚ :=
  round2 (scorePriceComponent flight allFlights * priceWeight
    + scoreDurationComponent flight allFlights * durationWeight
    + scoreStopsComponent flight allFlights * stopsWeight)

/-- getScoreBreakdown of RankingEngine: independently rounded components plus
the rounded weighted total. -/
def getScoreBreakdown (flight : NormalizedFlight)
    (allFlights : List NormalizedFlight) : ScoreBreakdown :=
  let priceScore := scorePriceComponent flight allFlights
  let durationScore := scoreDurationComponent flight allFlights
  let stopsScore := scoreStopsComponent flight allFlights
  { priceScore := round2 priceScore
    durationScore := round2 durationScore
    stopsScore := round2 stopsScore
    totalScore := round2 (priceScore * priceWeight
      + durationScore * durationWeight + stopsScore * stopsWeight) }

/-- The sort key rankingScore with the JavaScript fallback (score or 0) used
by both sorts of the pipeline. -/
def scoreKey (f : NormalizedFlight) : ℚ := f.rankingScore.getD 0

/-- The comparator (a, b) =&gt; (b.rankingScore or 0) - (a.rankingScore or 0)
as the total preorder it sorts by: descending score. -/
def byScoreDesc (a b : NormalizedFlight) : Prop := scoreKey b ≤ scoreKey a

instance : DecidableRel byScoreDesc := fun a b =>
  inferInstanceAs (Decidable (scoreKey b ≤ scoreKey a))

instance : IsTotal NormalizedFlight byScoreDesc :=
  ⟨fun a b => le_total (scoreKey b) (scoreKey a)⟩

instance : IsTrans NormalizedFlight byScoreDesc :=
  ⟨fun _ _ _ h1 h2 => le_trans h2 h1⟩

/-- The score and breakdown annotation attached to each flight by rankFlights
before sorting. -/
def annotate (allFlights : List NormalizedFlight)
    (f : NormalizedFlight) : NormalizedFlight :=
  { f with rankingScore := some (calculateScore f allFlights)
           scoreBreakdown := some (getScoreBreakdown f allFlights) }

/-- rankFlights of RankingEngine: annotate every flight with its score against
the whole input population, then stable-sort by descending score. -/
def rankFlights (flights : List NormalizedFlight) : List NormalizedFlight :=
  if flights.length = 0 then []
  else List.insertionSort byScoreDesc (flights.map (annotate flights))

/-- Filter criteria record of filterFlights (minStars is declared by the
source but never read). -/
structure FilterCriteria where
  maxPrice : Option ℚ
  maxStops : Option ℚ
  maxDuration : Option ℚ
  airlines : Option (List String)
  minStars : Option ℚ
deriving DecidableEq

/-- The per-flight predicate of filterFlights, with the truthiness guards of
the source: maxPrice and maxDuration are tested for truthiness (so 0 disables
them), maxStops is tested against undefined only, and any present airlines
array (even empty) is enforced. -/
def passesFilter (criteria : FilterCriteria) (flight : NormalizedFlight) : Bool :=
  (match criteria.maxPrice with
   | none => true
   | some p => !(p != 0 && decide (flight.price > p)))
  && (match criteria.maxStops with
      | none => true
      | some s => !(decide ((flight.stops : ℚ) > s)))
  && (match criteria.maxDuration with
      | none => true
      | some d => !(d != 0 && decide (flight.duration > d)))
  && (match criteria.airlines with
      | none => true
      | some l => l.contains flight.airlineCode)

/-- filterFlights of RankingEngine. -/
def filterFlights (flights : List NormalizedFlight)
    (criteria : FilterCriteria) : List NormalizedFlight :=
  flights.filter (passesFilter criteria)

/-- Result record of getPriceStats. -/
structure PriceStats where
  min : ℚ
  max : ℚ
  average : ℚ
  median : ℚ
deriving DecidableEq

/-- getPriceStats of RankingEngine: min, max, mean and median of the price
field over the ascending-sorted price list, each rounded to 2 decimals; all
zero on empty input. -/
def getPriceStats (flights : List NormalizedFlight) : PriceStats :=
  if flights.length = 0 then { min := 0, max := 0, average := 0, median := 0 }
  else
    let prices := List.insertionSort (fun a b : ℚ => a ≤ b)
      (flights.map (fun f => f.price))
    let mn := prices.getD 0 0
    let mx := prices.getD (prices.length - 1) 0
    let average := prices.foldl (fun a b => a + b) 0 / (prices.length : ℚ)
    let median :=
      if prices.length % 2 = 0 then
        (prices.getD (prices.length / 2 - 1) 0
          + prices.getD (prices.length / 2) 0) / 2
      else prices.getD (prices.length / 2) 0
    { min := round2 mn, max := round2 mx
      average := round2 average, median := round2 median }

/-- Provider status outcome enumeration of the common types module. -/
inductive PStatus
  | success
  | error
  | timeout
deriving DecidableEq

/-- Overall search result status enumeration (partialStatus models the string
literal for a partial result). -/
inductive ResultStatus
  | success
  | partialStatus
  | error
deriving DecidableEq

/-- ProviderStatus record of src/common/types.ts. -/
structure ProviderStatus where
  name : String
  status : PStatus
  resultsCount : ℕ
  error : Option String
  responseTime : ℕ
deriving DecidableEq

/-- FlightSearchParams, restricted to the fields the aggregator reads.  The
fromCode and toCode fields model from and to of the source. -/
structure SearchParams where
  fromCode : String
  toCode : String
  departDate : Option String
  returnDate : Option String
  passengers : Option ℚ
  tripType : TripType
  includeProviders : Option (List String)
deriving DecidableEq

/-- FlightSearchResult record of src/common/types.ts. -/
structure FlightSearchResult where
  status : ResultStatus
  query : SearchParams
  flights : List NormalizedFlight
  totalResults : ℕ
  providersQueried : List ProviderStatus
  timestamp : String
  cacheHit : Bool
deriving DecidableEq

/-- Outcome of one provider search call: a returned offer list, a thrown
Error carrying a message, or a thrown non-Error value. -/
inductive SearchBehavior
  | ok (flights : List NormalizedFlight)
  | throwError (msg : String)
  | throwNonError
deriving DecidableEq

/-- A registered provider as the aggregator sees it for one request: whether
canHandle accepts the request, and what search does. -/
structure Provider where
  canHandle : Bool
  behavior : SearchBehavior
deriving DecidableEq

/-- Lookup in the provider Map, modelled on its association list. -/
def lookupProvider (registry : List (String × Provider))
    (name : String) : Option Provider :=
  (registry.find? (fun e => e.1 == name)).map (fun e => e.2)

/-- Models Date.getHours for an instant in minutes since the epoch (UTC). -/
def jsGetHours (t : ℕ) : ℕ := t / 60 % 24

/-- getFlightSignature of FlightAggregatorService: the underscore-joined key
of origin, destination, carrier, departure hour, arrival hour, 10-dollar
price bucket and stop count. -/
def getFlightSignature (flight : NormalizedFlight) : String :=
  flight.departureAirport ++ "_" ++ flight.arrivalAirport ++ "_"
    ++ flight.airlineCode ++ "_" ++ natStr (jsGetHours flight.departureTime)
    ++ "_" ++ natStr (jsGetHours flight.arrivalTime) ++ "_"
    ++ intStr (jsRound (flight.price / 10)) ++ "_" ++ natStr flight.stops

/-- The first-occurrence loop of deduplicateFlights over the seen signature
set. -/
def dedupFirstAux (seen : List String) :
    List NormalizedFlight → List NormalizedFlight
  | [] => []
  | f :: fs =>
    if getFlightSignature f ∈ seen then dedupFirstAux seen fs
    else f :: dedupFirstAux (getFlightSignature f :: seen) fs

/-- deduplicateFlights of FlightAggregatorService: stable-sort by descending
score, then keep the first occurrence of every signature. -/
def deduplicateFlights (flights : List NormalizedFlight) :
    List NormalizedFlight :=
  dedupFirstAux [] (List.insertionSort byScoreDesc flights)

/-- selectProviders of FlightAggregatorService: a truthy nonempty explicit
subset is intersected with the registered names, otherwise all registered
names are used. -/
def selectProviders (registry : List (String × Provider))
    (params : SearchParams) : List String :=
  match params.includeProviders with
  | some ps =>
    if 0 < ps.length then ps.filter (fun p => (lookupProvider registry p).isSome)
    else registry.map (fun e => e.1)
  | none => registry.map (fun e => e.1)

/-- queryProvider of FlightAggregatorService: synthetic errors for unknown or
non-handling providers, caught search failures otherwise. -/
def queryProvider (registry : List (String × Provider))
    (providerName : String) : List NormalizedFlight × Option String :=
  match lookupProvider registry providerName with
  | none => ([], some ("Provider " ++ providerName ++ " not found"))
  | some provider =>
    if !provider.canHandle then
      ([], some ("Provider " ++ providerName ++ " cannot handle this search"))
    else
      match provider.behavior with
      | SearchBehavior.ok flights => (flights, none)
      | SearchBehavior.throwError msg => ([], some msg)
      | SearchBehavior.throwNonError => ([], some ("Unknown error"))

/-- One settled promise of the Promise.allSettled fan-out. -/
inductive SettledResult
  | fulfilled (flights : List NormalizedFlight) (error : Option String)
  | rejected (reasonMessage : Option String)
deriving DecidableEq

/-- JavaScript truthiness of an optional string: present and nonempty. -/
def strOptTruthy : Option String → Bool
  | none => false
  | some s => s != ""

/-- The per-result body of the results.forEach loop: build one ProviderStatus
from one settled call. -/
def settleStatus (providerName : String) (resultTime : ℕ) :
    SettledResult → ProviderStatus
  | SettledResult.fulfilled flights err =>
    { name := providerName
      status := if strOptTruthy err then PStatus.error else PStatus.success
      resultsCount := flights.length
      error := err
      responseTime := resultTime }
  | SettledResult.rejected m =>
    { name := providerName
      status := PStatus.error
      resultsCount := 0
      error := some (match m with
        | some s => if s = "" then ("Unknown error") else s
        | none => ("Unknown error"))
      responseTime := resultTime }

/-- The indexed results.forEach loop assembling one ProviderStatus per settled
call; times gives the elapsed wall clock observed at each index. -/
def buildStatuses (times : ℕ → ℕ) :
    List String → List SettledResult → List ProviderStatus
  | [], _ => []
  | _, [] => []
  | n :: ns, r :: rs =>
    settleStatus n (times 0) r :: buildStatuses (fun i => times (i + 1)) ns rs

/-- The offers contributed by one settled call (rejected calls contribute
none). -/
def settledFlights : SettledResult → List NormalizedFlight
  | SettledResult.fulfilled flights _ => flights
  | SettledResult.rejected _ => []

/-- Overall status computation of searchFlights: success when every provider
status is success, partial when at least one is, error otherwise. -/
def overallStatus (statuses : List ProviderStatus) : ResultStatus :=
  if statuses.all (fun s => s.status == PStatus.success) then ResultStatus.success
  else if statuses.any (fun s => s.status == PStatus.success) then
    ResultStatus.partialStatus
  else ResultStatus.error

/-- searchFlights of FlightAggregatorService.  The cachedResult input is the
value the cache returns for the derived key of this request; the second
component of the output is the value written back to that key together with
its TTL in seconds, or none when nothing is written. -/
def searchFlights (registry : List (String × Provider))
    (cachedResult : Option FlightSearchResult) (params : SearchParams)
    (times : ℕ → ℕ) (timestamp : String) :
    FlightSearchResult × Option (FlightSearchResult × ℕ) :=
  match cachedResult with
  | some cached => ({ cached with cacheHit := true }, none)
  | none =>
    let providersToQuery := selectProviders registry params
    if providersToQuery.length = 0 then
      ({ status := ResultStatus.error, query := params, flights := []
         totalResults := 0, providersQueried := [], timestamp := timestamp
         cacheHit := false }, none)
    else
      let results := providersToQuery.map (fun n =>
        SettledResult.fulfilled (queryProvider registry n).1
          (queryProvider registry n).2)
      let providerStatuses := buildStatuses times providersToQuery results
      let aggregatedFlights := (results.map settledFlights).flatten
      let deduplicatedFlights := deduplicateFlights aggregatedFlights
      let rankedFlights := rankFlights deduplicatedFlights
      let status := overallStatus providerStatuses
      let searchResult : FlightSearchResult :=
        { status := status, query := params, flights := rankedFlights
          totalResults := rankedFlights.length
          providersQueried := providerStatuses, timestamp := timestamp
          cacheHit := false }
      (searchResult, some ({ searchResult with cacheHit := false }, 600))

/-- Result record of validateSearchParams. -/
structure ValidationResult where
  valid : Bool
  errors : List String
deriving DecidableEq

/-- Models a JavaScript Date comparison a &lt; b where either side may be an
invalid date (none, comparing as NaN, hence false). -/
def jsDateLt (a b : Option ℤ) : Bool :=
  match a, b with
  | some x, some y => decide (x < y)
  | _, _ => false

/-- Models a JavaScript Date comparison a ≤ b with NaN semantics. -/
def jsDateLe (a b : Option ℤ) : Bool :=
  match a, b with
  | some x, some y => decide (x ≤ y)
  | _, _ => false

/-- Parse of an optional date string: new Date(undefined) is invalid. -/
def optDateVal (dateVal : String → Option ℤ) : Option String → Option ℤ
  | none => none
  | some s => dateVal s

/-- validateSearchParams of FlightAggregatorService, parameterized by the
date parser dateVal and the current instant now. -/
def validateSearchParams (dateVal : String → Option ℤ) (now : ℤ)
    (params : SearchParams) : ValidationResult :=
  let errors : List String :=
    (if params.fromCode.length != 3 then ["Invalid departure airport code"]
     else [])
    ++ (if params.toCode.length != 3 then ["Invalid arrival airport code"]
        else [])
    ++ (if !strOptTruthy params.departDate then ["Departure date is required"]
        else if jsDateLt (dateVal (params.departDate.getD (""))) (some now) then
          ["Departure date cannot be in the past"]
        else [])
    ++ (if params.tripType == TripType.roundTrip
          && !strOptTruthy params.returnDate then
          ["Return date is required for round-trip"]
        else [])
    ++ (if params.tripType == TripType.roundTrip
          && strOptTruthy params.returnDate then
          (if jsDateLe (dateVal (params.returnDate.getD ("")))
              (optDateVal dateVal params.departDate) then
            ["Return date must be after departure date"]
          else [])
        else [])
    ++ (if (match params.passengers with
            | none => true
            | some n => n == 0 || decide (n < 1) || decide (9 < n)) then
          ["Number of passengers must be between 1 and 9"]
        else [])
  { valid := errors.length == 0, errors := errors }

/-- Specification-side formula (from the spec wording): min-max normalization
of a value over [mn, mx], inverted so the best value maps to 100 and the worst
to 0, with 100 when the population carries no information. -/
def invMinMax (v mn mx : ℚ) : ℚ :=
  if mn = mx then 100 else 100 * ((mx - v) / (mx - mn))

/-- Specification-side equivalence of the dedup claim: agreement on origin,
destination, carrier code, departure clock hour, arrival clock hour, stop
count and 10-dollar price bucket. -/
def specEquiv (a b : NormalizedFlight) : Prop :=
  a.departureAirport = b.departureAirport
    ∧ a.arrivalAirport = b.arrivalAirport
    ∧ a.airlineCode = b.airlineCode
    ∧ jsGetHours a.departureTime = jsGetHours b.departureTime
    ∧ jsGetHours a.arrivalTime = jsGetHours b.arrivalTime
    ∧ a.stops = b.stops
    ∧ jsRound (a.price / 10) = jsRound (b.price / 10)

instance (a b : NormalizedFlight) : Decidable (specEquiv a b) := by
  unfold specEquiv; infer_instance

/-- First element of a list attaining the maximal score key (ties keep the
earliest element), the representative the dedup claim describes. -/
def firstMaxKey : List NormalizedFlight → Option NormalizedFlight
  | [] => none
  | f :: fs =>
    match firstMaxKey fs with
    | none => some f
    | some g => if scoreKey f < scoreKey g then some g else some f

/-- Specification-side filter predicate of the filter claim: every criterion
that is set must hold, price and duration bounded inclusively, stops bounded,
airline code contained in the allow-list. -/
def claimPasses (criteria : FilterCriteria) (flight : NormalizedFlight) : Prop :=
  (match criteria.maxPrice with
   | none => True
   | some p => flight.price ≤ p)
  ∧ (match criteria.maxStops with
     | none => True
     | some s => (flight.stops : ℚ) ≤ s)
  ∧ (match criteria.maxDuration with
     | none => True
     | some d => flight.duration ≤ d)
  ∧ (match criteria.airlines with
     | none => True
     | some l => flight.airlineCode ∈ l)

instance (criteria : FilterCriteria) (flight : NormalizedFlight) :
    Decidable (claimPasses criteria flight) := by
  unfold claimPasses
  cases criteria.maxPrice <;> cases criteria.maxStops
    <;> cases criteria.maxDuration <;> cases criteria.airlines <;> infer_instance

/-- Amended filter predicate: as claimPasses, except that a maxPrice of 0 and
a maxDuration of 0 are ignored, matching the truthiness guards of the code. -/
def amendedPasses (criteria : FilterCriteria) (flight : NormalizedFlight) : Prop :=
  (match criteria.maxPrice with
   | none => True
   | some p => p = 0 ∨ flight.price ≤ p)
  ∧ (match criteria.maxStops with
     | none => True
     | some s => (flight.stops : ℚ) ≤ s)
  ∧ (match criteria.maxDuration with
     | none => True
     | some d => d = 0 ∨ flight.duration ≤ d)
  ∧ (match criteria.airlines with
     | none => True
     | some l => flight.airlineCode ∈ l)

instance (criteria : FilterCriteria) (flight : NormalizedFlight) :
    Decidable (amendedPasses criteria flight) := by
  unfold amendedPasses
  cases criteria.maxPrice <;> cases criteria.maxStops
    <;> cases criteria.maxDuration <;> cases criteria.airlines <;> infer_instance

/-! ### Concrete fixtures used by counterexamples and witnesses -/

/-- A concrete normalized flight used as the base of test fixtures. -/
def baseFlight : NormalizedFlight :=
  { id := "demo-1", provider := "demo", airline := "Demo Airlines"
    airlineCode := "DM", departureTime := 600, arrivalTime := 810
    duration := 210, stops := 0, price := 450, currency := "USD"
    bookingUrl := "https://example.com/book", tripType := TripType.oneWay
    departureAirport := "JFK", arrivalAirport := "LAX"
    departureDate := "2030-01-01", returnDate := none
    rankingScore := none, scoreBreakdown := none }

/-- Signature-collision fixture: carrier code carrying an underscore. -/
def collideA : NormalizedFlight :=
  { baseFlight with airlineCode := "AA_10" }

/-- Signature-collision fixture: different arrival airport and carrier whose
joined signature string coincides with the one of collideA. -/
def collideB : NormalizedFlight :=
  { baseFlight with id := "demo-2", arrivalAirport := "LAX_AA"
                    airlineCode := "10" }

/-- Duplicate-pair fixture, lower-scored member of the class. -/
def dupLow : NormalizedFlight := baseFlight

/-- Duplicate-pair fixture: same dedup class as dupLow, higher score. -/
def dupHigh : NormalizedFlight :=
  { baseFlight with id := "demo-3", price := 452, rankingScore := some 50 }

/-- One-stop variant of the base flight. -/
def oneStopFlight : NormalizedFlight :=
  { baseFlight with id := "demo-4", stops := 1 }

/-- Two-stop fixture for the stops-dimension witness. -/
def twoStopA : NormalizedFlight :=
  { baseFlight with id := "demo-5", stops := 2 }

/-- Second two-stop fixture with a different price. -/
def twoStopB : NormalizedFlight :=
  { baseFlight with id := "demo-6", stops := 2, price := 500 }

/-- Cheaper variant of the base flight for the price-stats witness. -/
def cheapFlight : NormalizedFlight :=
  { baseFlight with id := "demo-7", price := 380 }

/-- Filter criteria with maxPrice set to 0, which the code treats as unset. -/
def zeroPriceCriteria : FilterCriteria :=
  { maxPrice := some 0, maxStops := none, maxDuration := none
    airlines := none, minStars := none }

/-- A three-provider registry: one succeeding, one throwing a timeout error,
one that cannot handle the request. -/
def demoRegistry : List (String × Provider) :=
  [("demo", { canHandle := true, behavior := SearchBehavior.ok [baseFlight] }),
   ("amadeus", { canHandle := true
                 behavior := SearchBehavior.throwError ("Request timed out") }),
   ("kiwi", { canHandle := false, behavior := SearchBehavior.ok [] })]

/-- A valid one-way search request. -/
def demoParams : SearchParams :=
  { fromCode := "JFK", toCode := "LAX", departDate := some ("2030-01-01")
    returnDate := none, passengers := some 1, tripType := TripType.oneWay
    includeProviders := none }

/-- The same request with an explicitly empty provider subset. -/
def emptyIncludeParams : SearchParams :=
  { demoParams with includeProviders := some ([] : List String) }

/-- The same request with an explicit subset naming only unknown providers. -/
def unknownIncludeParams : SearchParams :=
  { demoParams with includeProviders := some ["nosuch"] }

/-- A request whose origin code is three digits rather than three letters. -/
def digitOriginParams : SearchParams :=
  { demoParams with fromCode := "123" }

/-! ### Helper lemmas about jsMin and jsMax -/

theorem foldl_min_le_init (l : List ℚ) : ∀ a : ℚ, l.foldl min a ≤ a := by
  induction l with
  | nil => intro a; simp
  | cons x xs ih =>
    intro a
    simp only [List.foldl_cons]
    exact le_trans (ih (min a x)) (min_le_left a x)

theorem foldl_min_le_mem (l : List ℚ) :
    ∀ a b : ℚ, b ∈ l → l.foldl min a ≤ b := by
  induction l with
  | nil => intro a b hb; cases hb
  | cons x xs ih =>
    intro a b hb
    simp only [List.foldl_cons]
    rcases List.mem_cons.mp hb with h | h
    · subst h
      exact le_trans (foldl_min_le_init xs (min a b)) (min_le_right a b)
    · exact ih (min a x) b h

theorem foldl_min_mem_or (l : List ℚ) :
    ∀ a : ℚ, l.foldl min a = a ∨ l.foldl min a ∈ l := by
  induction l with
  | nil => intro a; left; rfl
  | cons x xs ih =>
    intro a
    simp only [List.foldl_cons]
    rcases ih (min a x) with h | h
    · rcases min_choice a x with hc | hc
      · left; rw [h, hc]
      · right; rw [h, hc]; exact List.mem_cons_self x xs
    · right; exact List.mem_cons_of_mem x h

theorem jsMin_cons (x : ℚ) (xs : List ℚ) : jsMin (x :: xs) = xs.foldl min x := rfl

theorem jsMax_cons (x : ℚ) (xs : List ℚ) : jsMax (x :: xs) = xs.foldl max x := rfl

theorem jsMin_le (l : List ℚ) (b : ℚ) (hb : b ∈ l) : jsMin l ≤ b := by
  cases l with
  | nil => cases hb
  | cons x xs =>
    rw [jsMin_cons]
    rcases List.mem_cons.mp hb with h | h
    · subst h; exact foldl_min_le_init xs b
    · exact foldl_min_le_mem xs x b h

theorem jsMin_mem (l : List ℚ) (h : l ≠ []) : jsMin l ∈ l := by
  cases l with
  | nil => exact absurd rfl h
  | cons x xs =>
    rw [jsMin_cons]
    rcases foldl_min_mem_or xs x with h1 | h1
    · rw [h1]; exact List.mem_cons_self x xs
    · exact List.mem_cons_of_mem x h1

theorem jsMin_eq_of (l : List ℚ) (c : ℚ) (hc : c ∈ l)
    (hle : ∀ b ∈ l, c ≤ b) : jsMin l = c :=
  le_antisymm (jsMin_le l c hc)
    (hle _ (jsMin_mem l (List.ne_nil_of_mem hc)))

theorem jsMin_perm {l l' : List ℚ} (h : l.Perm l') : jsMin l = jsMin l' := by
  rcases eq_or_ne l [] with rfl | hne
  · rw [h.nil_eq]
  · have hne' : l' ≠ [] := by
      intro he; rw [he] at h; exact hne h.eq_nil
    exact jsMin_eq_of l (jsMin l') (h.mem_iff.mpr (jsMin_mem l' hne'))
      (fun b hb => jsMin_le l' b (h.mem_iff.mp hb))

theorem foldl_max_init_le (l : List ℚ) : ∀ a : ℚ, a ≤ l.foldl max a := by
  induction l with
  | nil => intro a; simp
  | cons x xs ih =>
    intro a
    simp only [List.foldl_cons]
    exact le_trans (le_max_left a x) (ih (max a x))

theorem foldl_max_mem_le (l : List ℚ) :
    ∀ a b : ℚ, b ∈ l → b ≤ l.foldl max a := by
  induction l with
  | nil => intro a b hb; cases hb
  | cons x xs ih =>
    intro a b hb
    simp only [List.foldl_cons]
    rcases List.mem_cons.mp hb with h | h
    · subst h
      exact le_trans (le_max_right a b) (foldl_max_init_le xs (max a b))
    · exact ih (max a x) b h

theorem foldl_max_mem_or (l : List ℚ) :
    ∀ a : ℚ, l.foldl max a = a ∨ l.foldl max a ∈ l := by
  induction l with
  | nil => intro a; left; rfl
  | cons x xs ih =>
    intro a
    simp only [List.foldl_cons]
    rcases ih (max a x) with h | h
    · rcases max_choice a x with hc | hc
      · left; rw [h, hc]
      · right; rw [h, hc]; exact List.mem_cons_self x xs
    · right; exact List.mem_cons_of_mem x h

theorem jsMax_ge (l : List ℚ) (b : ℚ) (hb : b ∈ l) : b ≤ jsMax l := by
  cases l with
  | nil => cases hb
  | cons x xs =>
    rw [jsMax_cons]
    rcases List.mem_cons.mp hb with h | h
    · subst h; exact foldl_max_init_le xs b
    · exact foldl_max_mem_le xs x b h

theorem jsMax_mem (l : List ℚ) (h : l ≠ []) : jsMax l ∈ l := by
  cases l with
  | nil => exact absurd rfl h
  | cons x xs =>
    rw [jsMax_cons]
    rcases foldl_max_mem_or xs x with h1 | h1
    · rw [h1]; exact List.mem_cons_self x xs
    · exact List.mem_cons_of_mem x h1

theorem jsMax_eq_of (l : List ℚ) (c : ℚ) (hc : c ∈ l)
    (hle : ∀ b ∈ l, b ≤ c) : jsMax l = c :=
  le_antisymm (hle _ (jsMax_mem l (List.ne_nil_of_mem hc)))
    (jsMax_ge l c hc)

theorem jsMax_perm {l l' : List ℚ} (h : l.Perm l') : jsMax l = jsMax l' := by
  rcases eq_or_ne l [] with rfl | hne
  · rw [h.nil_eq]
  · have hne' : l' ≠ [] := by
      intro he; rw [he] at h; exact hne h.eq_nil
    exact jsMax_eq_of l (jsMax l') (h.mem_iff.mpr (jsMax_mem l' hne'))
      (fun b hb => jsMax_ge l' b (h.mem_iff.mp hb))

/-! ### Decimal rendering lemmas -/

theorem digitChar_ne_special : ∀ k < 10,
    Nat.digitChar k ≠ '_' ∧ Nat.digitChar k ≠ '-' := by decide

theorem digitChar_decVal : ∀ k < 10, (Nat.digitChar k).toNat - 48 = k := by decide

theorem digitsSpec_chars (n : ℕ) :
    ∀ c ∈ digitsSpec n, c ≠ '_' ∧ c ≠ '-' := by
  induction n using Nat.strong_induction_on with
  | _ n ih =>
    rw [digitsSpec]
    split
    · intro c hc
      rw [List.mem_singleton] at hc
      subst hc
      exact digitChar_ne_special n (by omega)
    · intro c hc
      rcases List.mem_append.mp hc with h | h
      · exact ih (n / 10) (Nat.div_lt_self (by omega) (by omega)) c h
      · rw [List.mem_singleton] at h
        subst h
        exact digitChar_ne_special (n % 10) (by omega)

theorem digitsSpec_ne_nil (n : ℕ) : digitsSpec n ≠ [] := by
  rw [digitsSpec]
  split
  · exact List.cons_ne_nil _ _
  · simp

theorem toDecimalCore_eq_digitsSpec :
    ∀ (fuel n : ℕ) (ds : List Char), n < fuel →
      toDecimalCore fuel n ds = digitsSpec n ++ ds := by
  intro fuel
  induction fuel with
  | zero => intro n ds h; omega
  | succ f ih =>
    intro n ds h
    simp only [toDecimalCore]
    by_cases h0 : n / 10 = 0
    · rw [if_pos h0]
      have hn : n < 10 := by omega
      rw [digitsSpec, if_pos hn, Nat.mod_eq_of_lt hn]
      rfl
    · rw [if_neg h0]
      have hge : 10 ≤ n := by
        by_contra hc
        push_neg at hc
        exact h0 (Nat.div_eq_of_lt hc)
      have hlt : n / 10 < n := Nat.div_lt_self (by omega) (by omega)
      have hltf : n / 10 < f := by omega
      have hds : digitsSpec n = digitsSpec (n / 10) ++ [Nat.digitChar (n % 10)] := by
        rw [digitsSpec]
        exact if_neg (by omega)
      rw [ih (n / 10) _ hltf, hds]
      simp

theorem natStr_data (n : ℕ) : (natStr n).data = digitsSpec n := by
  unfold natStr
  rw [toDecimalCore_eq_digitsSpec (n + 1) n [] (by omega)]
  simp

/-- Decimal decoding used to prove that the rendering is injective. -/
def decodeDigits (l : List Char) : ℕ :=
  l.foldl (fun a c => 10 * a + (c.toNat - 48)) 0

theorem decode_digitsSpec : ∀ n, decodeDigits (digitsSpec n) = n := by
  intro n
  induction n using Nat.strong_induction_on with
  | _ n ih =>
    rw [digitsSpec]
    split
    · unfold decodeDigits
      simp only [List.foldl_cons, List.foldl_nil]
      have := digitChar_decVal n (by omega)
      omega
    · unfold decodeDigits
      rw [List.foldl_append]
      have hlt : n / 10 < n := Nat.div_lt_self (by omega) (by omega)
      have hrec := ih (n / 10) hlt
      unfold decodeDigits at hrec
      rw [hrec]
      simp only [List.foldl_cons, List.foldl_nil]
      have := digitChar_decVal (n % 10) (by omega)
      omega

theorem natStr_inj {a b : ℕ} (h : natStr a = natStr b) : a = b := by
  have hd : digitsSpec a = digitsSpec b := by
    rw [← natStr_data, ← natStr_data, h]
  calc a = decodeDigits (digitsSpec a) := (decode_digitsSpec a).symm
    _ = decodeDigits (digitsSpec b) := by rw [hd]
    _ = b := decode_digitsSpec b

theorem natStr_no_underscore (n : ℕ) : '_' ∉ (natStr n).data := by
  rw [natStr_data]
  intro hmem
  exact (digitsSpec_chars n '_' hmem).1 rfl

theorem intStr_data_ofNat (n : ℕ) : (intStr (Int.ofNat n)).data = digitsSpec n :=
  natStr_data n

theorem intStr_data_negSucc (n : ℕ) :
    (intStr (Int.negSucc n)).data = '-' :: digitsSpec (n + 1) := by
  show (("-" : String) ++ natStr (n + 1)).data = _
  rw [String.data_append, natStr_data]
  rfl

theorem intStr_no_underscore (z : ℤ) : '_' ∉ (intStr z).data := by
  cases z with
  | ofNat n => rw [intStr_data_ofNat]; intro hmem; exact (digitsSpec_chars n '_' hmem).1 rfl
  | negSucc n =>
    rw [intStr_data_negSucc]
    intro hmem
    rcases List.mem_cons.mp hmem with h | h
    · exact absurd h.symm (by decide)
    · exact (digitsSpec_chars (n + 1) '_' h).1 rfl

theorem intStr_inj {a b : ℤ} (h : intStr a = intStr b) : a = b := by
  have hd := congrArg String.data h
  cases a with
  | ofNat m =>
    cases b with
    | ofNat n =>
      rw [intStr_data_ofNat, intStr_data_ofNat] at hd
      have : natStr m = natStr n := by
        apply String.ext
        rw [natStr_data, natStr_data]
        exact hd
      rw [natStr_inj this]
    | negSucc n =>
      rw [intStr_data_ofNat, intStr_data_negSucc] at hd
      exfalso
      have : '-' ∈ digitsSpec m := by
        rw [hd]; exact List.mem_cons_self _ _
      exact (digitsSpec_chars m '-' this).2 rfl
  | negSucc m =>
    cases b with
    | ofNat n =>
      rw [intStr_data_negSucc, intStr_data_ofNat] at hd
      exfalso
      have : '-' ∈ digitsSpec n := by
        rw [← hd]; exact List.mem_cons_self _ _
      exact (digitsSpec_chars n '-' this).2 rfl
    | negSucc n =>
      rw [intStr_data_negSucc, intStr_data_negSucc] at hd
      have htail : digitsSpec (m + 1) = digitsSpec (n + 1) := List.tail_eq_of_cons_eq hd
      have : natStr (m + 1) = natStr (n + 1) := by
        apply String.ext
        rw [natStr_data, natStr_data]
        exact htail
      have hmn : m = n := by
        have := natStr_inj this
        omega
      rw [hmn]

theorem split_underscore :
    ∀ (a c r1 r2 : List Char), '_' ∉ a → '_' ∉ c →
      a ++ '_' :: r1 = c ++ '_' :: r2 → a = c ∧ r1 = r2 := by
  intro a
  induction a with
  | nil =>
    intro c r1 r2 _ hc heq
    cases c with
    | nil =>
      simp only [List.nil_append] at heq
      exact ⟨rfl, List.tail_eq_of_cons_eq heq⟩
    | cons ch cs =>
      exfalso
      simp only [List.nil_append, List.cons_append] at heq
      have : ch = '_' := (List.head_eq_of_cons_eq heq).symm
      exact hc (this ▸ List.mem_cons_self ch cs)
  | cons ha as ih =>
    intro c r1 r2 hna hc heq
    cases c with
    | nil =>
      exfalso
      simp only [List.cons_append, List.nil_append] at heq
      have : ha = '_' := List.head_eq_of_cons_eq heq
      exact hna (this ▸ List.mem_cons_self ha as)
    | cons hc2 cs =>
      simp only [List.cons_append] at heq
      have hh : ha = hc2 := List.head_eq_of_cons_eq heq
      have ht := List.tail_eq_of_cons_eq heq
      have has : '_' ∉ as := fun hm => hna (List.mem_cons_of_mem ha hm)
      have hcs : '_' ∉ cs := fun hm => hc (List.mem_cons_of_mem hc2 hm)
      rcases ih cs r1 r2 has hcs ht with ⟨h1, h2⟩
      exact ⟨by rw [hh, h1], h2⟩

/-! ### Signature decomposition -/

/-- Hypothesis under which the string signature is injective in its seven
components: the three string-typed fields carry no underscore (IATA airport
and carrier codes never do). -/
def underscoreFree (f : NormalizedFlight) : Prop :=
  '_' ∉ f.departureAirport.data ∧ '_' ∉ f.arrivalAirport.data
    ∧ '_' ∉ f.airlineCode.data

instance (f : NormalizedFlight) : Decidable (underscoreFree f) := by
  unfold underscoreFree; infer_instance

theorem sig_data (f : NormalizedFlight) :
    (getFlightSignature f).data =
      f.departureAirport.data ++ '_' :: (f.arrivalAirport.data ++ '_'
        :: (f.airlineCode.data ++ '_'
        :: ((natStr (jsGetHours f.departureTime)).data ++ '_'
        :: ((natStr (jsGetHours f.arrivalTime)).data ++ '_'
        :: ((intStr (jsRound (f.price / 10))).data ++ '_'
        :: (natStr f.stops).data))))) := by
  have hu : ("_" : String).data = ['_'] := rfl
  unfold getFlightSignature
  simp [String.data_append, hu, List.append_assoc]

theorem signature_eq_iff (f g : NormalizedFlight)
    (hf : underscoreFree f) (hg : underscoreFree g) :
    getFlightSignature f = getFlightSignature g ↔ specEquiv f g := by
  constructor
  · intro h
    have hd := congrArg String.data h
    rw [sig_data, sig_data] at hd
    obtain ⟨h1, hd⟩ := split_underscore _ _ _ _ hf.1 hg.1 hd
    obtain ⟨h2, hd⟩ := split_underscore _ _ _ _ hf.2.1 hg.2.1 hd
    obtain ⟨h3, hd⟩ := split_underscore _ _ _ _ hf.2.2 hg.2.2 hd
    obtain ⟨h4, hd⟩ := split_underscore _ _ _ _
      (natStr_no_underscore _) (natStr_no_underscore _) hd
    obtain ⟨h5, hd⟩ := split_underscore _ _ _ _
      (natStr_no_underscore _) (natStr_no_underscore _) hd
    obtain ⟨h6, h7⟩ := split_underscore _ _ _ _
      (intStr_no_underscore _) (intStr_no_underscore _) hd
    exact ⟨String.ext h1, String.ext h2, String.ext h3,
      natStr_inj (String.ext h4), natStr_inj (String.ext h5),
      natStr_inj (String.ext h7), intStr_inj (String.ext h6)⟩
  · intro h
    obtain ⟨e1, e2, e3, e4, e5, e6, e7⟩ := h
    unfold getFlightSignature
    rw [e1, e2, e3, e4, e5, e6, e7]

/-! ### Stable sort lemmas -/

theorem orderedInsert_of_forall {α : Type} (r : α → α → Prop) [DecidableRel r]
    (x : α) : ∀ (M : List α), (∀ z ∈ M, r x z) → M.orderedInsert r x = x :: M
  | [], _ => rfl
  | y :: ys, h => by
    rw [List.orderedInsert, if_pos (h y (List.mem_cons_self y ys))]

theorem filter_orderedInsert_pos {α : Type} (r : α → α → Prop) [DecidableRel r]
    [IsTrans α r] (p : α → Bool) (x : α) (hx : p x = true) :
    ∀ (M : List α), List.Sorted r M →
      (M.orderedInsert r x).filter p = (M.filter p).orderedInsert r x := by
  intro M
  induction M with
  | nil => intro _; simp [List.orderedInsert, hx]
  | cons y ys ih =>
    intro hs
    have hys : List.Sorted r ys := (List.pairwise_cons.mp hs).2
    have hyz : ∀ b ∈ ys, r y b := (List.pairwise_cons.mp hs).1
    rw [List.orderedInsert]
    by_cases hxy : r x y
    · rw [if_pos hxy]
      cases hpy : p y with
      | false =>
        have hfxy : (x :: y :: ys).filter p = x :: ys.filter p := by
          rw [List.filter_cons, hx, List.filter_cons, hpy]
          simp
        have hfy : (y :: ys).filter p = ys.filter p := by
          rw [List.filter_cons, hpy]
          simp
        rw [hfxy, hfy]
        have hforall : ∀ z ∈ ys.filter p, r x z := fun z hz =>
          IsTrans.trans x y z hxy (hyz z (List.mem_of_mem_filter hz))
        rw [orderedInsert_of_forall r x (ys.filter p) hforall]
      | true =>
        have hfxy : (x :: y :: ys).filter p = x :: y :: ys.filter p := by
          rw [List.filter_cons, hx, List.filter_cons, hpy]
          simp
        have hfy : (y :: ys).filter p = y :: ys.filter p := by
          rw [List.filter_cons, hpy]
          simp
        rw [hfxy, hfy, List.orderedInsert, if_pos hxy]
    · rw [if_neg hxy]
      cases hpy : p y with
      | false =>
        have h1 : (y :: ys.orderedInsert r x).filter p
            = (ys.orderedInsert r x).filter p := by
          rw [List.filter_cons, hpy]
          simp
        have h2 : (y :: ys).filter p = ys.filter p := by
          rw [List.filter_cons, hpy]
          simp
        rw [h1, h2, ih hys]
      | true =>
        have h1 : (y :: ys.orderedInsert r x).filter p
            = y :: (ys.orderedInsert r x).filter p := by
          rw [List.filter_cons, hpy]
          simp
        have h2 : (y :: ys).filter p = y :: ys.filter p := by
          rw [List.filter_cons, hpy]
          simp
        rw [h1, h2, ih hys, List.orderedInsert, if_neg hxy]

theorem filter_orderedInsert_neg {α : Type} (r : α → α → Prop) [DecidableRel r]
    (p : α → Bool) (x : α) (hx : p x = false) :
    ∀ (M : List α), (M.orderedInsert r x).filter p = M.filter p := by
  intro M
  induction M with
  | nil => simp [List.orderedInsert, hx]
  | cons y ys ih =>
    rw [List.orderedInsert]
    by_cases hxy : r x y
    · rw [if_pos hxy, List.filter_cons, hx]
      simp
    · rw [if_neg hxy, List.filter_cons, List.filter_cons, ih]

theorem filter_insertionSort {α : Type} (r : α → α → Prop) [DecidableRel r]
    [IsTotal α r] [IsTrans α r] (p : α → Bool) (l : List α) :
    (List.insertionSort r l).filter p = List.insertionSort r (l.filter p) := by
  induction l with
  | nil => rfl
  | cons x xs ih =>
    rw [List.insertionSort]
    cases hpx : p x with
    | false =>
      have h2 : (x :: xs).filter p = xs.filter p := by
        rw [List.filter_cons, hpx]
        simp
      rw [filter_orderedInsert_neg r p x hpx, ih, h2]
    | true =>
      have h2 : (x :: xs).filter p = x :: xs.filter p := by
        rw [List.filter_cons, hpx]
        simp
      rw [filter_orderedInsert_pos r p x hpx _ (List.sorted_insertionSort r xs),
        ih, h2, List.insertionSort]

theorem head_orderedInsert_byScore (x : NormalizedFlight)
    (L : List NormalizedFlight) :
    (L.orderedInsert byScoreDesc x).head? =
      some (match L.head? with
            | none => x
            | some y => if scoreKey x < scoreKey y then y else x) := by
  cases L with
  | nil => rfl
  | cons y ys =>
    rw [List.orderedInsert]
    by_cases h : byScoreDesc x y
    · rw [if_pos h]
      simp only [List.head?_cons]
      rw [if_neg (not_lt.mpr h)]
    · rw [if_neg h]
      simp only [List.head?_cons]
      rw [if_pos (lt_of_not_le h)]

theorem head_insertionSort_firstMax (l : List NormalizedFlight) :
    (List.insertionSort byScoreDesc l).head? = firstMaxKey l := by
  induction l with
  | nil => rfl
  | cons x xs ih =>
    rw [List.insertionSort, head_orderedInsert_byScore, ih, firstMaxKey]
    cases hfm : firstMaxKey xs with
    | none => rfl
    | some g =>
      simp only []
      rw [apply_ite some]

/-! ### Deduplication lemmas -/

theorem dedupFirstAux_sublist :
    ∀ (l : List NormalizedFlight) (seen : List String),
      (dedupFirstAux seen l).Sublist l := by
  intro l
  induction l with
  | nil => intro seen; exact List.Sublist.refl []
  | cons f fs ih =>
    intro seen
    rw [dedupFirstAux]
    by_cases h : getFlightSignature f ∈ seen
    · rw [if_pos h]
      exact (ih seen).cons f
    · rw [if_neg h]
      exact (ih (getFlightSignature f :: seen)).cons₂ f

theorem dedupFirstAux_filter :
    ∀ (l : List NormalizedFlight) (seen : List String) (s : String),
      (dedupFirstAux seen l).filter (fun f => decide (getFlightSignature f = s))
        = if s ∈ seen then []
          else (l.filter (fun f => decide (getFlightSignature f = s))).take 1 := by
  intro l
  induction l with
  | nil =>
    intro seen s
    rw [dedupFirstAux]
    by_cases h : s ∈ seen
    · rw [if_pos h]; rfl
    · rw [if_neg h]; rfl
  | cons f fs ih =>
    intro seen s
    rw [dedupFirstAux]
    by_cases ht : getFlightSignature f ∈ seen
    · rw [if_pos ht, ih seen s]
      by_cases hss : s ∈ seen
      · rw [if_pos hss, if_pos hss]
      · rw [if_neg hss, if_neg hss]
        have hne : getFlightSignature f ≠ s := fun he => hss (he ▸ ht)
        rw [List.filter_cons_of_neg (by simp [hne])]
    · rw [if_neg ht]
      by_cases hts : getFlightSignature f = s
      · rw [List.filter_cons_of_pos (by simp [hts])]
        have hss : s ∉ seen := fun h => ht (hts ▸ h)
        rw [if_neg hss]
        rw [ih (getFlightSignature f :: seen) s,
          if_pos (hts ▸ List.mem_cons_self (getFlightSignature f) seen)]
        rw [List.filter_cons_of_pos (by simp [hts])]
        rfl
      · rw [List.filter_cons_of_neg (by simp [hts])]
        rw [ih (getFlightSignature f :: seen) s]
        have hmem : (s ∈ getFlightSignature f :: seen) ↔ (s ∈ seen) := by
          constructor
          · intro h
            rcases List.mem_cons.mp h with h1 | h1
            · exact absurd h1.symm hts
            · exact h1
          · exact List.mem_cons_of_mem _
        by_cases hss : s ∈ seen
        · rw [if_pos (hmem.mpr hss), if_pos hss]
        · rw [if_neg (fun h => hss (hmem.mp h)), if_neg hss]
          rw [List.filter_cons_of_neg (by simp [hts])]

theorem dedupFirstAux_nodup :
    ∀ (l : List NormalizedFlight) (seen : List String),
      ((dedupFirstAux seen l).map getFlightSignature).Nodup
        ∧ ∀ f ∈ dedupFirstAux seen l, getFlightSignature f ∉ seen := by
  intro l
  induction l with
  | nil => intro seen; exact ⟨List.nodup_nil, by intro f hf; cases hf⟩
  | cons f fs ih =>
    intro seen
    rw [dedupFirstAux]
    by_cases h : getFlightSignature f ∈ seen
    · rw [if_pos h]
      exact ih seen
    · rw [if_neg h]
      obtain ⟨ihn, ihs⟩ := ih (getFlightSignature f :: seen)
      constructor
      · rw [List.map_cons, List.nodup_cons]
        refine ⟨?_, ihn⟩
        intro hmem
        rcases List.mem_map.mp hmem with ⟨g, hg, hgs⟩
        exact (ihs g hg) (hgs ▸ List.mem_cons_self _ _)
      · intro g hg
        rcases List.mem_cons.mp hg with h1 | h1
        · rw [h1]; exact h
        · exact fun hm => (ihs g h1) (List.mem_cons_of_mem _ hm)

theorem dedupFirstAux_eq_self :
    ∀ (l : List NormalizedFlight) (seen : List String),
      (∀ f ∈ l, getFlightSignature f ∉ seen) →
      ((l.map getFlightSignature).Nodup) → dedupFirstAux seen l = l := by
  intro l
  induction l with
  | nil => intro seen _ _; rfl
  | cons f fs ih =>
    intro seen hseen hnd
    rw [dedupFirstAux, if_neg (hseen f (List.mem_cons_self f fs))]
    congr 1
    apply ih
    · intro g hg hmem
      rcases List.mem_cons.mp hmem with h1 | h1
      · rw [List.map_cons, List.nodup_cons] at hnd
        exact hnd.1 (h1 ▸ List.mem_map_of_mem getFlightSignature hg)
      · exact hseen g (List.mem_cons_of_mem f hg) h1
    · rw [List.map_cons, List.nodup_cons] at hnd
      exact hnd.2

theorem deduplicateFlights_sorted (xs : List NormalizedFlight) :
    List.Sorted byScoreDesc (deduplicateFlights xs) := by
  unfold deduplicateFlights
  exact List.Pairwise.sublist
    (dedupFirstAux_sublist (List.insertionSort byScoreDesc xs) [])
    (List.sorted_insertionSort byScoreDesc xs)

theorem deduplicateFlights_mem {xs : List NormalizedFlight}
    {f : NormalizedFlight} (h : f ∈ deduplicateFlights xs) : f ∈ xs := by
  unfold deduplicateFlights at h
  have h1 := (dedupFirstAux_sublist (List.insertionSort byScoreDesc xs) []).mem h
  exact (List.mem_insertionSort byScoreDesc).mp h1

theorem deduplicateFlights_filter_class (xs : List NormalizedFlight) (s : String) :
    (deduplicateFlights xs).filter (fun f => decide (getFlightSignature f = s))
      = (firstMaxKey
          (xs.filter (fun f => decide (getFlightSignature f = s)))).toList := by
  unfold deduplicateFlights
  rw [dedupFirstAux_filter (List.insertionSort byScoreDesc xs) [] s,
    if_neg (List.not_mem_nil s)]
  rw [filter_insertionSort byScoreDesc
    (fun f => decide (getFlightSignature f = s)) xs]
  rw [List.take_one, head_insertionSort_firstMax]

set_option maxRecDepth 4000 in
/-- C3 counterexample: the dedup equivalence of the claim (agreement on the
seven fields) does not match the code, whose signature is a plain
underscore-joined string: two offers differing in arrival airport and carrier
code collide, so the class of the second offer loses its representative. -/
theorem claim3_counterexample :
    deduplicateFlights [collideA, collideB] = [collideA]
      ∧ ¬ specEquiv collideA collideB := by
  constructor
  · with_unfolding_all decide
  · with_unfolding_all decide

/-- C3 (amended): provided the airport and carrier code strings carry no
underscore, deduplicateFlights returns a subset of its input with exactly one
representative per seven-field equivalence class: filtering the output by any
class of an input offer yields exactly the first input offer attaining the
maximal ranking score of that class (missing scores count as 0, ties are
broken by input order). -/
theorem claim3_amended_dedupe (xs : List NormalizedFlight)
    (hu : ∀ f ∈ xs, underscoreFree f) :
    (∀ f ∈ deduplicateFlights xs, f ∈ xs)
    ∧ ∀ g ∈ xs,
        (deduplicateFlights xs).filter (fun f => decide (specEquiv f g))
          = (firstMaxKey
              (xs.filter (fun f => decide (specEquiv f g)))).toList := by
  refine ⟨fun f hf => deduplicateFlights_mem hf, ?_⟩
  intro g hg
  have hcong : ∀ f ∈ xs, (decide (specEquiv f g) : Bool)
      = decide (getFlightSignature f = getFlightSignature g) := by
    intro f hf
    exact decide_eq_decide.mpr (signature_eq_iff f g (hu f hf) (hu g hg)).symm
  have h1 : (deduplicateFlights xs).filter (fun f => decide (specEquiv f g))
      = (deduplicateFlights xs).filter
          (fun f => decide (getFlightSignature f = getFlightSignature g)) :=
    List.filter_congr (fun f hf => hcong f (deduplicateFlights_mem hf))
  have h2 : xs.filter (fun f => decide (specEquiv f g))
      = xs.filter
          (fun f => decide (getFlightSignature f = getFlightSignature g)) :=
    List.filter_congr hcong
  rw [h1, h2, deduplicateFlights_filter_class xs (getFlightSignature g)]

/-- C3 witness: on a concrete pair sharing one dedup class, the amended
theorem applies and its hypotheses hold. -/
theorem claim3_witness :
    (∀ f ∈ [dupLow, dupHigh], underscoreFree f)
    ∧ ((∀ f ∈ deduplicateFlights [dupLow, dupHigh], f ∈ [dupLow, dupHigh])
      ∧ ∀ g ∈ [dupLow, dupHigh],
          (deduplicateFlights [dupLow, dupHigh]).filter
              (fun f => decide (specEquiv f g))
            = (firstMaxKey
                ([dupLow, dupHigh].filter
                  (fun f => decide (specEquiv f g)))).toList) :=
  ⟨by with_unfolding_all decide,
    claim3_amended_dedupe [dupLow, dupHigh] (by with_unfolding_all decide)⟩

/-- C7: deduplication is idempotent, in content and order. -/
theorem claim7_dedupe_idempotent (xs : List NormalizedFlight) :
    deduplicateFlights (deduplicateFlights xs) = deduplicateFlights xs := by
  have hsorted := deduplicateFlights_sorted xs
  have hnodup : ((deduplicateFlights xs).map getFlightSignature).Nodup := by
    unfold deduplicateFlights
    exact (dedupFirstAux_nodup _ []).1
  show dedupFirstAux []
    (List.insertionSort byScoreDesc (deduplicateFlights xs)) = _
  rw [List.Sorted.insertionSort_eq hsorted]
  exact dedupFirstAux_eq_self (deduplicateFlights xs) []
    (fun f _ => List.not_mem_nil _) hnodup

/-! ### Ranking engine lemmas -/

theorem scorePriceComponent_congr {f1 f2 : NormalizedFlight}
    {pop1 pop2 : List NormalizedFlight} (hp : f1.price = f2.price)
    (hperm : (pop1.map (fun f => f.price)).Perm (pop2.map (fun f => f.price))) :
    scorePriceComponent f1 pop1 = scorePriceComponent f2 pop2 := by
  unfold scorePriceComponent
  dsimp only
  rw [jsMin_perm hperm, jsMax_perm hperm, hp]

theorem scoreDurationComponent_congr {f1 f2 : NormalizedFlight}
    {pop1 pop2 : List NormalizedFlight} (hd : f1.duration = f2.duration)
    (hperm : (pop1.map (fun f => f.duration)).Perm
      (pop2.map (fun f => f.duration))) :
    scoreDurationComponent f1 pop1 = scoreDurationComponent f2 pop2 := by
  unfold scoreDurationComponent
  dsimp only
  rw [jsMin_perm hperm, jsMax_perm hperm, hd]

theorem scoreStopsComponent_congr {f1 f2 : NormalizedFlight}
    {pop1 pop2 : List NormalizedFlight} (hs : f1.stops = f2.stops)
    (hperm : (pop1.map (fun f => (f.stops : ℚ))).Perm
      (pop2.map (fun f => (f.stops : ℚ)))) :
    scoreStopsComponent f1 pop1 = scoreStopsComponent f2 pop2 := by
  unfold scoreStopsComponent
  dsimp only
  rw [jsMax_perm hperm, hs]

theorem calculateScore_congr (f1 f2 : NormalizedFlight)
    (pop1 pop2 : List NormalizedFlight)
    (hp : f1.price = f2.price) (hd : f1.duration = f2.duration)
    (hs : f1.stops = f2.stops)
    (hpp : (pop1.map (fun f => f.price)).Perm (pop2.map (fun f => f.price)))
    (hpd : (pop1.map (fun f => f.duration)).Perm
      (pop2.map (fun f => f.duration)))
    (hps : (pop1.map (fun f => (f.stops : ℚ))).Perm
      (pop2.map (fun f => (f.stops : ℚ)))) :
    calculateScore f1 pop1 = calculateScore f2 pop2
      ∧ getScoreBreakdown f1 pop1 = getScoreBreakdown f2 pop2 := by
  unfold calculateScore getScoreBreakdown
  dsimp only
  rw [scorePriceComponent_congr hp hpp, scoreDurationComponent_congr hd hpd,
    scoreStopsComponent_congr hs hps]
  exact ⟨rfl, rfl⟩

theorem annotate_update_self (g : NormalizedFlight) (c : ℚ) (b : ScoreBreakdown)
    (hc : g.rankingScore = some c) (hb : g.scoreBreakdown = some b) :
    ({ g with rankingScore := some c, scoreBreakdown := some b }
      : NormalizedFlight) = g := by
  cases g
  simp only at hc hb
  rw [← hc, ← hb]

theorem map_price_map_annotate (fs pop : List NormalizedFlight) :
    (fs.map (annotate pop)).map (fun f => f.price) = fs.map (fun f => f.price) := by
  rw [List.map_map]
  rfl

theorem map_duration_map_annotate (fs pop : List NormalizedFlight) :
    (fs.map (annotate pop)).map (fun f => f.duration)
      = fs.map (fun f => f.duration) := by
  rw [List.map_map]
  rfl

theorem map_stops_map_annotate (fs pop : List NormalizedFlight) :
    (fs.map (annotate pop)).map (fun f => (f.stops : ℚ))
      = fs.map (fun f => (f.stops : ℚ)) := by
  rw [List.map_map]
  rfl

theorem map_id_of_mem {α : Type} {l : List α} {f : α → α}
    (h : ∀ a ∈ l, f a = a) : l.map f = l := by
  induction l with
  | nil => rfl
  | cons x xs ih =>
    rw [List.map_cons, h x (List.mem_cons_self x xs),
      ih (fun a ha => h a (List.mem_cons_of_mem x ha))]

theorem rankFlights_perm (fs : List NormalizedFlight) :
    (rankFlights fs).Perm (fs.map (annotate fs)) := by
  unfold rankFlights
  by_cases h : fs.length = 0
  · rw [if_pos h, List.length_eq_zero.mp h]
    rfl
  · rw [if_neg h]
    exact List.perm_insertionSort byScoreDesc (fs.map (annotate fs))

/-- C8: rankFlights preserves length, its output is a permutation of the
input offers annotated with their scores against the input population, and
rankFlights is fully idempotent: reapplying it to its own output reproduces
it exactly (same scores, same breakdowns, same order). -/
theorem claim8_rank_idempotent (fs : List NormalizedFlight) :
    (rankFlights fs).length = fs.length
    ∧ (rankFlights fs).Perm (fs.map (annotate fs))
    ∧ rankFlights (rankFlights fs) = rankFlights fs := by
  refine ⟨?_, rankFlights_perm fs, ?_⟩
  · rw [(rankFlights_perm fs).length_eq, List.length_map]
  · by_cases hemp : fs.length = 0
    · rw [List.length_eq_zero.mp hemp]
      rfl
    · have hlen : (rankFlights fs).length = fs.length := by
        rw [(rankFlights_perm fs).length_eq, List.length_map]
      have hpermP : ((rankFlights fs).map (fun f => f.price)).Perm
          (fs.map (fun f => f.price)) := by
        have h1 := (rankFlights_perm fs).map (fun f => f.price)
        rwa [map_price_map_annotate] at h1
      have hpermD : ((rankFlights fs).map (fun f => f.duration)).Perm
          (fs.map (fun f => f.duration)) := by
        have h1 := (rankFlights_perm fs).map (fun f => f.duration)
        rwa [map_duration_map_annotate] at h1
      have hpermS : ((rankFlights fs).map (fun f => (f.stops : ℚ))).Perm
          (fs.map (fun f => (f.stops : ℚ))) := by
        have h1 := (rankFlights_perm fs).map (fun f => (f.stops : ℚ))
        rwa [map_stops_map_annotate] at h1
      have hfix : ∀ g ∈ rankFlights fs, annotate (rankFlights fs) g = g := by
        intro g hg
        have hg2 : g ∈ fs.map (annotate fs) := (rankFlights_perm fs).mem_iff.mp hg
        rcases List.mem_map.mp hg2 with ⟨f, _, hgf⟩
        have hscore := calculateScore_congr g f (rankFlights fs) fs
          (by rw [← hgf]; rfl) (by rw [← hgf]; rfl) (by rw [← hgf]; rfl)
          hpermP hpermD hpermS
        unfold annotate
        have hrs : g.rankingScore = some (calculateScore g (rankFlights fs)) := by
          rw [hscore.1, ← hgf]
          rfl
        have hsb : g.scoreBreakdown
            = some (getScoreBreakdown g (rankFlights fs)) := by
          rw [hscore.2, ← hgf]
          rfl
        exact annotate_update_self g _ _ hrs hsb
      have hmapid : (rankFlights fs).map (annotate (rankFlights fs))
          = rankFlights fs := map_id_of_mem hfix
      have hsorted : List.Sorted byScoreDesc (rankFlights fs) := by
        unfold rankFlights
        rw [if_neg hemp]
        exact List.sorted_insertionSort byScoreDesc (fs.map (annotate fs))
      conv_lhs => rw [rankFlights]
      rw [if_neg (by rw [hlen]; exact hemp), hmapid,
        List.Sorted.insertionSort_eq hsorted]

set_option maxRecDepth 4000 in
/-- C1 counterexample: a population whose offers all share the common
non-zero stop count 1 gets stops component 0, not 100, so the stops
dimension is not the inverted min-max normalization the claim describes. -/
theorem claim1_counterexample :
    (∀ g ∈ [oneStopFlight], g.stops = 1)
    ∧ scoreStopsComponent oneStopFlight [oneStopFlight] = 0
    ∧ (0 : ℚ) ≠ 100 := by
  refine ⟨by with_unfolding_all decide, ?_, by norm_num⟩
  with_unfolding_all decide

/-- C1 (amended): the price and duration components equal the inverted
min-max normalization over the population (100 when the population is
uniform in that dimension), but the stops component is max-based: it is 100
when the maximal stop count is 0, and on a population sharing one common
non-zero stop count it is 0 for every member, not 100. -/
theorem claim1_amended_minmax (f : NormalizedFlight)
    (pop : List NormalizedFlight) :
    scorePriceComponent f pop
        = invMinMax f.price (jsMin (pop.map (fun g => g.price)))
            (jsMax (pop.map (fun g => g.price)))
    ∧ scoreDurationComponent f pop
        = invMinMax f.duration (jsMin (pop.map (fun g => g.duration)))
            (jsMax (pop.map (fun g => g.duration)))
    ∧ (jsMax (pop.map (fun g => (g.stops : ℚ))) = 0
        → scoreStopsComponent f pop = 100)
    ∧ ∀ n : ℕ, f ∈ pop → (∀ g ∈ pop, g.stops = n) → n ≠ 0
        → scoreStopsComponent f pop = 0 := by
  refine ⟨?_, ?_, ?_, ?_⟩
  · unfold scorePriceComponent invMinMax
    dsimp only
    by_cases h : jsMin (pop.map (fun g => g.price))
        = jsMax (pop.map (fun g => g.price))
    · rw [if_pos h, if_pos h]
    · rw [if_neg h, if_neg h]
      have hne : jsMax (pop.map (fun g => g.price))
          - jsMin (pop.map (fun g => g.price)) ≠ 0 :=
        sub_ne_zero.mpr (Ne.symm h)
      field_simp
  · unfold scoreDurationComponent invMinMax
    dsimp only
    by_cases h : jsMin (pop.map (fun g => g.duration))
        = jsMax (pop.map (fun g => g.duration))
    · rw [if_pos h, if_pos h]
    · rw [if_neg h, if_neg h]
      have hne : jsMax (pop.map (fun g => g.duration))
          - jsMin (pop.map (fun g => g.duration)) ≠ 0 :=
        sub_ne_zero.mpr (Ne.symm h)
      field_simp
  · intro h0
    unfold scoreStopsComponent
    dsimp only
    rw [if_pos h0]
  · intro n hf hall hn0
    have hmax : jsMax (pop.map (fun g => (g.stops : ℚ))) = (n : ℚ) := by
      apply jsMax_eq_of
      · exact List.mem_map.mpr ⟨f, hf, by rw [hall f hf]⟩
      · intro b hb
        rcases List.mem_map.mp hb with ⟨g, hgmem, hgb⟩
        rw [← hgb, hall g hgmem]
    unfold scoreStopsComponent
    dsimp only
    rw [hmax, if_neg (Nat.cast_ne_zero.mpr hn0), hall f hf,
      div_self (Nat.cast_ne_zero.mpr hn0)]
    ring

set_option maxRecDepth 4000 in
/-- C1 witness: the amended theorem applied to a concrete two-offer
population sharing the common non-zero stop count 2. -/
theorem claim1_witness :
    scoreStopsComponent twoStopA [twoStopA, twoStopB] = 0 :=
  (claim1_amended_minmax twoStopA [twoStopA, twoStopB]).2.2.2 2
    (by with_unfolding_all decide) (by with_unfolding_all decide)
    (by decide)

/-! ### Filter lemmas -/

theorem passesFilter_eq_amended (criteria : FilterCriteria)
    (f : NormalizedFlight) :
    passesFilter criteria f = decide (amendedPasses criteria f) := by
  rw [Bool.eq_iff_iff]
  unfold passesFilter amendedPasses
  rcases criteria with ⟨mp, ms, md, al, mst⟩
  dsimp only
  cases mp <;> cases ms <;> cases md <;> cases al <;>
    simp [not_lt, List.elem_iff] <;> tauto

set_option maxRecDepth 4000 in
/-- C6 counterexample: with maxPrice set to 0, the code keeps an offer priced
450 because the truthiness guard treats 0 as unset, while the claim requires
every offer of the output to satisfy the set price bound. -/
theorem claim6_counterexample :
    filterFlights [baseFlight] zeroPriceCriteria = [baseFlight]
    ∧ ¬ claimPasses zeroPriceCriteria baseFlight := by
  constructor
  · with_unfolding_all decide
  · with_unfolding_all decide

/-- C6 (amended): filterFlights returns exactly the offers, in input order,
that satisfy every set criterion, except that a maxPrice of 0 or a
maxDuration of 0 is ignored (JavaScript truthiness); with no criteria set the
output equals the input. -/
theorem claim6_amended_filter (flights : List NormalizedFlight)
    (criteria : FilterCriteria) :
    filterFlights flights criteria
        = flights.filter (fun f => decide (amendedPasses criteria f))
    ∧ filterFlights flights
        { maxPrice := none, maxStops := none, maxDuration := none
          airlines := none, minStars := none } = flights := by
  constructor
  · unfold filterFlights
    exact List.filter_congr (fun f _ => passesFilter_eq_amended criteria f)
  · unfold filterFlights
    have h : ∀ f : NormalizedFlight,
        passesFilter { maxPrice := none, maxStops := none, maxDuration := none
                       airlines := none, minStars := none } f = true :=
      fun _ => rfl
    rw [List.filter_congr (fun f _ => h f), List.filter_true]

/-! ### Price statistics lemmas -/

theorem sorted_le_getLast (q : List ℚ) :
    q.Sorted (fun a b => a ≤ b) → ∀ (hne : q ≠ []) (b : ℚ), b ∈ q →
      b ≤ q.getLast hne := by
  induction q with
  | nil => intro _ hne; exact absurd rfl hne
  | cons x rest ih =>
    intro hs hne b hb
    cases rest with
    | nil =>
      have hbx : b = x := List.mem_singleton.mp hb
      subst hbx
      exact le_of_eq rfl
    | cons y ys =>
      have hne2 : y :: ys ≠ [] := List.cons_ne_nil y ys
      rw [List.getLast_cons hne2]
      rcases List.mem_cons.mp hb with hbx | hbm
      · subst hbx
        exact List.rel_of_sorted_cons hs _ (List.getLast_mem hne2)
      · exact ih (List.pairwise_cons.mp hs).2 hne2 b hbm

theorem sorted_getD_zero (q : List ℚ) (hs : q.Sorted (fun a b => a ≤ b))
    (hne : q ≠ []) : q.getD 0 0 = jsMin q := by
  cases q with
  | nil => exact absurd rfl hne
  | cons x rest =>
    rw [List.getD_cons_zero]
    refine (jsMin_eq_of _ x (List.mem_cons_self x rest) ?_).symm
    intro b hb
    rcases List.mem_cons.mp hb with hbx | hbm
    · rw [hbx]
    · exact List.rel_of_sorted_cons hs b hbm

theorem sorted_getD_last (q : List ℚ) (hs : q.Sorted (fun a b => a ≤ b))
    (hne : q ≠ []) : q.getD (q.length - 1) 0 = jsMax q := by
  have hpos : 0 < q.length := List.length_pos.mpr hne
  have hlt : q.length - 1 < q.length := by omega
  rw [List.getD_eq_getElem q 0 hlt, ← List.getLast_eq_getElem q hne]
  exact (jsMax_eq_of q (q.getLast hne) (List.getLast_mem hne)
    (fun b hb => sorted_le_getLast q hs hne b hb)).symm

/-- C9: on a nonempty offer list, priceStats returns the minimum, maximum,
arithmetic mean, and even-odd median of the prices (the median taken over
any sorted permutation q of the prices), each rounded to 2 decimals; the
empty list yields all-zero statistics. -/
theorem claim9_price_stats :
    getPriceStats [] = { min := 0, max := 0, average := 0, median := 0 }
    ∧ ∀ (flights : List NormalizedFlight) (q : List ℚ),
        flights ≠ [] →
        q.Perm (flights.map (fun f => f.price)) →
        q.Sorted (fun a b => a ≤ b) →
        getPriceStats flights =
          { min := round2 (jsMin (flights.map (fun f => f.price)))
            max := round2 (jsMax (flights.map (fun f => f.price)))
            average := round2 ((flights.map (fun f => f.price)).sum
              / ((flights.map (fun f => f.price)).length : ℚ))
            median := round2 (if q.length % 2 = 0 then
                (q.getD (q.length / 2 - 1) 0 + q.getD (q.length / 2) 0) / 2
              else q.getD (q.length / 2) 0) } := by
  constructor
  · rfl
  · intro flights q hne hperm hsort
    have hPne : flights.map (fun f => f.price) ≠ [] := by
      intro h
      exact hne (List.map_eq_nil_iff.mp h)
    have hlen0 : ¬ flights.length = 0 := fun h => hne (List.length_eq_zero.mp h)
    have hqe : q = List.insertionSort (fun a b : ℚ => a ≤ b)
        (flights.map (fun f => f.price)) := by
      refine List.eq_of_perm_of_sorted ?_ hsort ?_
      · exact hperm.trans (List.perm_insertionSort _ _).symm
      · exact List.sorted_insertionSort _ _
    have hprices_ne : List.insertionSort (fun a b : ℚ => a ≤ b)
        (flights.map (fun f => f.price)) ≠ [] := by
      intro h
      have h2 := congrArg List.length h
      rw [List.length_insertionSort] at h2
      exact hPne (List.length_eq_zero.mp h2)
    have hsorted := List.sorted_insertionSort (fun a b : ℚ => a ≤ b)
      (flights.map (fun f => f.price))
    unfold getPriceStats
    rw [if_neg hlen0]
    dsimp only
    congr 1
    · rw [sorted_getD_zero _ hsorted hprices_ne,
        jsMin_perm (List.perm_insertionSort _ _)]
    · rw [sorted_getD_last _ hsorted hprices_ne,
        jsMax_perm (List.perm_insertionSort _ _)]
    · rw [← List.sum_eq_foldl, (List.perm_insertionSort _ _).sum_eq,
        List.length_insertionSort]
    · rw [hqe]

set_option maxRecDepth 4000 in
/-- C9 witness: the statistics of a concrete two-offer list, with the sorted
price permutation given explicitly. -/
theorem claim9_witness :
    getPriceStats [baseFlight, cheapFlight] =
      { min := round2 (jsMin ([baseFlight, cheapFlight].map (fun f => f.price)))
        max := round2 (jsMax ([baseFlight, cheapFlight].map (fun f => f.price)))
        average := round2 (([baseFlight, cheapFlight].map
            (fun f => f.price)).sum
          / (([baseFlight, cheapFlight].map (fun f => f.price)).length : ℚ))
        median := round2 (if ([(380 : ℚ), 450] : List ℚ).length % 2 = 0 then
            (([(380 : ℚ), 450] : List ℚ).getD
                (([(380 : ℚ), 450] : List ℚ).length / 2 - 1) 0
              + ([(380 : ℚ), 450] : List ℚ).getD
                (([(380 : ℚ), 450] : List ℚ).length / 2) 0) / 2
          else ([(380 : ℚ), 450] : List ℚ).getD
            (([(380 : ℚ), 450] : List ℚ).length / 2) 0) } :=
  claim9_price_stats.2 [baseFlight, cheapFlight] [(380 : ℚ), 450]
    (List.cons_ne_nil _ _) (by with_unfolding_all decide)
    (by with_unfolding_all decide)

/-! ### Aggregator status lemmas -/

theorem buildStatuses_nil_left (times : ℕ → ℕ) (rs : List SettledResult) :
    buildStatuses times [] rs = [] := by
  cases rs <;> rfl

theorem buildStatuses_map_name :
    ∀ (ns : List String) (rs : List SettledResult) (times : ℕ → ℕ),
      ns.length = rs.length →
      (buildStatuses times ns rs).map (fun s => s.name) = ns := by
  intro ns
  induction ns with
  | nil => intro rs times _; rw [buildStatuses_nil_left]; rfl
  | cons n ns2 ih =>
    intro rs times hlen
    cases rs with
    | nil => simp at hlen
    | cons r rs2 =>
      show ((settleStatus n (times 0) r)
        :: buildStatuses (fun i => times (i + 1)) ns2 rs2).map
          (fun s => s.name) = n :: ns2
      rw [List.map_cons]
      congr 1
      · cases r <;> rfl
      · exact ih rs2 (fun i => times (i + 1)) (by simpa using hlen)

theorem buildStatuses_length :
    ∀ (ns : List String) (rs : List SettledResult) (times : ℕ → ℕ),
      ns.length = rs.length →
      (buildStatuses times ns rs).length = ns.length := by
  intro ns rs times hlen
  have h := congrArg List.length (buildStatuses_map_name ns rs times hlen)
  rwa [List.length_map] at h

theorem buildStatuses_error :
    ∀ (ns : List String) (rs : List SettledResult) (times : ℕ → ℕ),
      ∀ s ∈ buildStatuses times ns rs, s.status ≠ PStatus.success →
        ∃ m, s.error = some m ∧ m ≠ "" := by
  intro ns
  induction ns with
  | nil =>
    intro rs times s hs
    rw [buildStatuses_nil_left] at hs
    cases hs
  | cons n ns2 ih =>
    intro rs times s hs hns
    cases rs with
    | nil => cases hs
    | cons r rs2 =>
      have hs2 : s ∈ (settleStatus n (times 0) r)
          :: buildStatuses (fun i => times (i + 1)) ns2 rs2 := hs
      rcases List.mem_cons.mp hs2 with hhead | htail
      · subst hhead
        cases r with
        | fulfilled fl err =>
          dsimp only [settleStatus] at hns ⊢
          by_cases ht : strOptTruthy err = true
          · cases err with
            | none => simp [strOptTruthy] at ht
            | some m =>
              refine ⟨m, rfl, ?_⟩
              simpa [strOptTruthy] using ht
          · exfalso
            apply hns
            rw [if_neg ht]
        | rejected m =>
          dsimp only [settleStatus]
          refine ⟨_, rfl, ?_⟩
          cases m with
          | none => simp
          | some str =>
            by_cases hstr : str = "" <;> simp [hstr]
      · exact ih rs2 (fun i => times (i + 1)) s htail hns

theorem overallStatus_success_iff (sts : List ProviderStatus) :
    overallStatus sts = ResultStatus.success
      ↔ ∀ s ∈ sts, s.status = PStatus.success := by
  unfold overallStatus
  by_cases h1 : sts.all (fun s => s.status == PStatus.success) = true
  · rw [if_pos h1]
    simp only [List.all_eq_true, beq_iff_eq] at h1
    exact iff_of_true rfl h1
  · rw [if_neg h1]
    have h2 : ¬ ∀ s ∈ sts, s.status = PStatus.success := by
      intro hall
      apply h1
      simp only [List.all_eq_true, beq_iff_eq]
      exact hall
    by_cases h3 : sts.any (fun s => s.status == PStatus.success) = true
    · rw [if_pos h3]
      exact iff_of_false (by decide) h2
    · rw [if_neg h3]
      exact iff_of_false (by decide) h2

theorem overallStatus_partial_iff (sts : List ProviderStatus) :
    overallStatus sts = ResultStatus.partialStatus
      ↔ ((∃ s ∈ sts, s.status = PStatus.success)
          ∧ ¬ ∀ s ∈ sts, s.status = PStatus.success) := by
  unfold overallStatus
  by_cases h1 : sts.all (fun s => s.status == PStatus.success) = true
  · rw [if_pos h1]
    simp only [List.all_eq_true, beq_iff_eq] at h1
    exact iff_of_false (by decide) (fun hc => hc.2 h1)
  · rw [if_neg h1]
    have h2 : ¬ ∀ s ∈ sts, s.status = PStatus.success := by
      intro hall
      apply h1
      simp only [List.all_eq_true, beq_iff_eq]
      exact hall
    by_cases h3 : sts.any (fun s => s.status == PStatus.success) = true
    · rw [if_pos h3]
      simp only [List.any_eq_true, beq_iff_eq] at h3
      exact iff_of_true rfl ⟨h3, h2⟩
    · rw [if_neg h3]
      have h4 : ¬ ∃ s ∈ sts, s.status = PStatus.success := by
        intro hex
        apply h3
        simp only [List.any_eq_true, beq_iff_eq]
        exact hex
      exact iff_of_false (by decide) (fun hc => h4 hc.1)

theorem overallStatus_error_iff (sts : List ProviderStatus) (hne : sts ≠ []) :
    overallStatus sts = ResultStatus.error
      ↔ ¬ ∃ s ∈ sts, s.status = PStatus.success := by
  unfold overallStatus
  by_cases h3 : sts.any (fun s => s.status == PStatus.success) = true
  · have hex : ∃ s ∈ sts, s.status = PStatus.success := by
      simpa only [List.any_eq_true, beq_iff_eq] using h3
    by_cases h1 : sts.all (fun s => s.status == PStatus.success) = true
    · rw [if_pos h1]
      exact iff_of_false (by decide) (fun h => h hex)
    · rw [if_neg h1, if_pos h3]
      exact iff_of_false (by decide) (fun h => h hex)
  · have hnex : ¬ ∃ s ∈ sts, s.status = PStatus.success := by
      intro hex
      apply h3
      simp only [List.any_eq_true, beq_iff_eq]
      exact hex
    have h1 : ¬ sts.all (fun s => s.status == PStatus.success) = true := by
      intro hall
      rcases List.exists_mem_of_ne_nil sts hne with ⟨s0, hs0⟩
      apply hnex
      refine ⟨s0, hs0, ?_⟩
      have := List.all_eq_true.mp hall s0 hs0
      simpa only [beq_iff_eq] using this
    rw [if_neg h1, if_neg h3]
    exact iff_of_true rfl hnex

/-- C2: on a cache miss with at least one selected provider, the result of
searchFlights carries exactly one ProviderStatus per queried provider (in
order), its overall status is success iff every provider succeeded, partial
iff at least one but not all succeeded, error iff none succeeded, and every
failing entry carries a nonempty error message. -/
theorem claim2_overall_status (registry : List (String × Provider))
    (params : SearchParams) (times : ℕ → ℕ) (timestamp : String)
    (hsel : selectProviders registry params ≠ []) :
    ((searchFlights registry none params times timestamp).1.providersQueried.map
        (fun s => s.name) = selectProviders registry params)
    ∧ ((searchFlights registry none params times timestamp).1.status
          = ResultStatus.success
        ↔ ∀ s ∈ (searchFlights registry none params times
              timestamp).1.providersQueried, s.status = PStatus.success)
    ∧ ((searchFlights registry none params times timestamp).1.status
          = ResultStatus.partialStatus
        ↔ ((∃ s ∈ (searchFlights registry none params times
                timestamp).1.providersQueried, s.status = PStatus.success)
            ∧ ¬ ∀ s ∈ (searchFlights registry none params times
                timestamp).1.providersQueried, s.status = PStatus.success))
    ∧ ((searchFlights registry none params times timestamp).1.status
          = ResultStatus.error
        ↔ ¬ ∃ s ∈ (searchFlights registry none params times
            timestamp).1.providersQueried, s.status = PStatus.success)
    ∧ (∀ s ∈ (searchFlights registry none params times
          timestamp).1.providersQueried, s.status ≠ PStatus.success
        → ∃ m, s.error = some m ∧ m ≠ "") := by
  have hlen : ¬ (selectProviders registry params).length = 0 :=
    fun h => hsel (List.length_eq_zero.mp h)
  have hlen2 : (selectProviders registry params).length
      = ((selectProviders registry params).map (fun n =>
          SettledResult.fulfilled (queryProvider registry n).1
            (queryProvider registry n).2)).length := by
    rw [List.length_map]
  have hpq : (searchFlights registry none params times
      timestamp).1.providersQueried
      = buildStatuses times (selectProviders registry params)
          ((selectProviders registry params).map (fun n =>
            SettledResult.fulfilled (queryProvider registry n).1
              (queryProvider registry n).2)) := by
    unfold searchFlights
    dsimp only
    rw [if_neg hlen]
  have hst : (searchFlights registry none params times timestamp).1.status
      = overallStatus (buildStatuses times (selectProviders registry params)
          ((selectProviders registry params).map (fun n =>
            SettledResult.fulfilled (queryProvider registry n).1
              (queryProvider registry n).2))) := by
    unfold searchFlights
    dsimp only
    rw [if_neg hlen]
  have hsts_ne : buildStatuses times (selectProviders registry params)
      ((selectProviders registry params).map (fun n =>
        SettledResult.fulfilled (queryProvider registry n).1
          (queryProvider registry n).2)) ≠ [] := by
    intro h
    have h2 := congrArg List.length h
    rw [buildStatuses_length _ _ _ hlen2] at h2
    exact hlen h2
  refine ⟨?_, ?_, ?_, ?_, ?_⟩
  · rw [hpq]
    exact buildStatuses_map_name _ _ _ hlen2
  · rw [hst, hpq]
    exact overallStatus_success_iff _
  · rw [hst, hpq]
    exact overallStatus_partial_iff _
  · rw [hst, hpq]
    exact overallStatus_error_iff _ hsts_ne
  · rw [hpq]
    exact buildStatuses_error _ _ _

set_option maxRecDepth 4000 in
/-- C2 witness: the three-provider registry (one success, one thrown error,
one cannot-handle) satisfies the hypotheses, and the status entries name the
selected providers in order. -/
theorem claim2_witness :
    (selectProviders demoRegistry demoParams ≠ [])
    ∧ ((searchFlights demoRegistry none demoParams (fun _ => 5)
          "2030-01-01T00:00:00Z").1.providersQueried.map (fun s => s.name)
        = selectProviders demoRegistry demoParams) :=
  ⟨by with_unfolding_all decide,
    (claim2_overall_status demoRegistry demoParams (fun _ => 5)
      "2030-01-01T00:00:00Z" (by with_unfolding_all decide)).1⟩

/-- C5: on a cache miss, when provider selection is empty (empty registry, or
an explicit nonempty subset naming no registered provider), searchFlights
returns an error-status result with no flights and no provider statuses, and
writes nothing to the cache. -/
theorem claim5_no_providers (registry : List (String × Provider))
    (params : SearchParams) (times : ℕ → ℕ) (timestamp : String)
    (h : registry = [] ∨ ∃ ps, params.includeProviders = some ps ∧ ps ≠ []
        ∧ ∀ n ∈ ps, lookupProvider registry n = none) :
    searchFlights registry none params times timestamp =
      ({ status := ResultStatus.error, query := params, flights := []
         totalResults := 0, providersQueried := [], timestamp := timestamp
         cacheHit := false }, none) := by
  have hsel : selectProviders registry params = [] := by
    rcases h with hreg | ⟨ps, hip, hpsne, hnone⟩
    · subst hreg
      unfold selectProviders
      cases hp : params.includeProviders with
      | none => rfl
      | some ps =>
        dsimp only
        by_cases hl : 0 < ps.length
        · rw [if_pos hl]
          apply List.filter_eq_nil_iff.mpr
          intro a _
          simp [lookupProvider]
        · rw [if_neg hl]
          rfl
    · unfold selectProviders
      rw [hip]
      dsimp only
      rw [if_pos (List.length_pos.mpr hpsne)]
      apply List.filter_eq_nil_iff.mpr
      intro a ha
      rw [hnone a ha]
      simp
  unfold searchFlights
  dsimp only
  rw [hsel]
  rfl

/-- C5 witness: the empty registry satisfies the hypothesis and yields the
short-circuit error result without a cache write. -/
theorem claim5_witness :
    searchFlights [] none demoParams (fun _ => 5) "2030-01-01T00:00:00Z" =
      ({ status := ResultStatus.error, query := demoParams, flights := []
         totalResults := 0, providersQueried := []
         timestamp := "2030-01-01T00:00:00Z", cacheHit := false }, none) :=
  claim5_no_providers [] demoParams (fun _ => 5) "2030-01-01T00:00:00Z"
    (Or.inl rfl)

/-- C10: an includeProviders field that is present but empty selects all
registered provider names, exactly as an absent field does; only a nonempty
explicit list is intersected with the registered names. -/
theorem claim10_empty_include_providers (registry : List (String × Provider))
    (params : SearchParams) :
    (params.includeProviders = some [] →
      selectProviders registry params = registry.map (fun e => e.1))
    ∧ (∀ ps, params.includeProviders = some ps → ps ≠ [] →
        selectProviders registry params
          = ps.filter (fun p => (lookupProvider registry p).isSome)) := by
  constructor
  · intro h
    unfold selectProviders
    rw [h]
    dsimp only
    rw [if_neg (by simp)]
  · intro ps h hne
    unfold selectProviders
    rw [h]
    dsimp only
    rw [if_pos (List.length_pos.mpr hne)]

set_option maxRecDepth 4000 in
/-- C10 witness: the concrete registry with an empty explicit subset selects
all three registered names, and a nonempty unknown subset is intersected. -/
theorem claim10_witness :
    selectProviders demoRegistry emptyIncludeParams
      = demoRegistry.map (fun e => e.1)
    ∧ selectProviders demoRegistry unknownIncludeParams
      = ["nosuch"].filter (fun p => (lookupProvider demoRegistry p).isSome) :=
  ⟨(claim10_empty_include_providers demoRegistry emptyIncludeParams).1 rfl,
   (claim10_empty_include_providers demoRegistry unknownIncludeParams).2
     ["nosuch"] rfl (by with_unfolding_all decide)⟩

/-! ### Validation lemmas -/

theorem mem_ite_singleton {c : Prop} [Decidable c] (x y : String) :
    (x ∈ if c then [y] else []) ↔ (c ∧ x = y) := by
  split_ifs with h <;> simp [h]

theorem mem_ite_ite_singleton {c d : Prop} [Decidable c] [Decidable d]
    (x y z : String) :
    (x ∈ if c then [y] else if d then [z] else [])
      ↔ ((c ∧ x = y) ∨ (¬c ∧ d ∧ x = z)) := by
  split_ifs <;> simp_all

theorem mem_ite_nested {c d : Prop} [Decidable c] [Decidable d] (x z : String) :
    (x ∈ if c then (if d then [z] else []) else []) ↔ (c ∧ d ∧ x = z) := by
  split_ifs <;> simp_all

set_option maxRecDepth 4000 in
/-- C4 counterexample: an origin code of three digits is not three letters,
yet validateSearchParams accepts the request (the code checks only the
length), so the claimed not-exactly-3-letters violation is not enumerated. -/
theorem claim4_counterexample :
    (validateSearchParams (fun _ => some 100) 0 digitOriginParams).valid = true
    ∧ ¬ (digitOriginParams.fromCode.length = 3
        ∧ ∀ c ∈ digitOriginParams.fromCode.data, c.isAlpha = true) := by
  constructor
  · with_unfolding_all decide
  · with_unfolding_all decide

/-- C4 (amended): valid is true exactly when the error list is empty, and
the error list enumerates exactly the violated constraints, with the origin
and destination checks testing only that the code has exactly 3 characters
(not that they are letters): missing or past departure date, missing return
date for a round trip, return date not strictly after the departure date for
a round trip, and passenger count outside [1, 9]. -/
theorem claim4_amended_validate (dateVal : String → Option ℤ) (now : ℤ)
    (p : SearchParams) :
    ((validateSearchParams dateVal now p).valid = true
      ↔ (validateSearchParams dateVal now p).errors = [])
    ∧ ("Invalid departure airport code"
        ∈ (validateSearchParams dateVal now p).errors ↔ p.fromCode.length ≠ 3)
    ∧ ("Invalid arrival airport code"
        ∈ (validateSearchParams dateVal now p).errors ↔ p.toCode.length ≠ 3)
    ∧ ("Departure date is required"
        ∈ (validateSearchParams dateVal now p).errors
        ↔ strOptTruthy p.departDate = false)
    ∧ ("Departure date cannot be in the past"
        ∈ (validateSearchParams dateVal now p).errors
        ↔ (strOptTruthy p.departDate = true
          ∧ jsDateLt (dateVal (p.departDate.getD (""))) (some now) = true))
    ∧ ("Return date is required for round-trip"
        ∈ (validateSearchParams dateVal now p).errors
        ↔ (p.tripType = TripType.roundTrip
          ∧ strOptTruthy p.returnDate = false))
    ∧ ("Return date must be after departure date"
        ∈ (validateSearchParams dateVal now p).errors
        ↔ (p.tripType = TripType.roundTrip
          ∧ strOptTruthy p.returnDate = true
          ∧ jsDateLe (dateVal (p.returnDate.getD ("")))
              (optDateVal dateVal p.departDate) = true))
    ∧ ("Number of passengers must be between 1 and 9"
        ∈ (validateSearchParams dateVal now p).errors
        ↔ (p.passengers = none
          ∨ ∃ n, p.passengers = some n ∧ (n < 1 ∨ 9 < n))) := by
  unfold validateSearchParams
  dsimp only
  refine ⟨?_, ?_, ?_, ?_, ?_, ?_, ?_, ?_⟩
  · rw [beq_iff_eq, List.length_eq_zero]
  · simp only [List.mem_append, mem_ite_singleton, mem_ite_ite_singleton,
      mem_ite_nested, bne_iff_ne, Bool.and_eq_true, Bool.not_eq_true',
      beq_iff_eq]
    simp [and_assoc]
  · simp only [List.mem_append, mem_ite_singleton, mem_ite_ite_singleton,
      mem_ite_nested, bne_iff_ne, Bool.and_eq_true, Bool.not_eq_true',
      beq_iff_eq]
    simp [and_assoc]
  · simp only [List.mem_append, mem_ite_singleton, mem_ite_ite_singleton,
      mem_ite_nested, bne_iff_ne, Bool.and_eq_true, Bool.not_eq_true',
      beq_iff_eq]
    simp [and_assoc]
  · simp only [List.mem_append, mem_ite_singleton, mem_ite_ite_singleton,
      mem_ite_nested, bne_iff_ne, Bool.and_eq_true, Bool.not_eq_true',
      beq_iff_eq]
    simp [and_assoc]
  · simp only [List.mem_append, mem_ite_singleton, mem_ite_ite_singleton,
      mem_ite_nested, bne_iff_ne, Bool.and_eq_true, Bool.not_eq_true',
      beq_iff_eq]
    simp [and_assoc]
  · simp only [List.mem_append, mem_ite_singleton, mem_ite_ite_singleton,
      mem_ite_nested, bne_iff_ne, Bool.and_eq_true, Bool.not_eq_true',
      beq_iff_eq]
    simp [and_assoc]
  · cases hp : p.passengers with
    | none =>
      simp [List.mem_append, mem_ite_singleton, mem_ite_ite_singleton,
        mem_ite_nested]
    | some n =>
      simp only [List.mem_append, mem_ite_singleton, mem_ite_ite_singleton,
        mem_ite_nested, bne_iff_ne, Bool.and_eq_true, Bool.not_eq_true',
        beq_iff_eq, Bool.or_eq_true, decide_eq_true_eq, Option.some.injEq]
      simp only [String.reduceEq, reduceCtorEq, false_and, and_false,
        or_false, false_or, and_true, true_and, exists_eq_left']
      constructor
      · rintro ((h | h) | h)
        · exact Or.inl (by rw [h]; norm_num)
        · exact Or.inl h
        · exact Or.inr h
      · rintro (h | h)
        · exact Or.inl (Or.inr h)
        · exact Or.inr h
